import Mathlib

/-!
A verification development for the core solver engine of a VRP framework.

It gives a shallow embedding of
* the time-window constraint module (`construction/constraints/timing.rs`):
  the forward/backward route-state passes, the hard and soft activity
  constraints and the solution-state hook;
* the static-selective hyper-heuristic (`solver/hyper/static_selective.rs`);
* the MDP simulator's action-value bookkeeping (`algorithms/mdp/simulator.rs`);
and proves the specified properties of these operations.

Modelling conventions:
* `f64` timestamps, durations and costs are modelled as rationals (`ℚ`);
* fallible code (Rust panics) is modelled in an `Except String` monad; Rust's
  call-by-value argument evaluation is made explicit where it matters
  (`unwrap_or` applied to a `panic!` expression);
* `HashMap` is modelled as an association list read through `alookup`
  (insertion prepends, which has exactly the lookup semantics of
  `HashMap::insert`);
* shared-memory handles (`Arc`, `RwLock`) are dropped: the embedded
  operations take and return the values the Rust code mutates in place.
-/

namespace Vrp

/-- A closed time interval of timestamps (`TimeWindow { start, end }`).
The Rust field `end` is called `end_` because `end` is a Lean keyword. -/
structure TimeWindow where
  start : ℚ
  end_ : ℚ
  deriving DecidableEq

/-- Derived arrival/departure schedule of an activity. -/
structure Schedule where
  arrival : ℚ
  departure : ℚ
  deriving DecidableEq

/-- Where an activity happens: location index, service duration, time window. -/
structure Place where
  location : ℕ
  duration : ℚ
  time : TimeWindow
  deriving DecidableEq

/-- A tour activity.  `job = none` denotes a vehicle terminal (start/end);
jobs are identified by an id (the Rust code holds an `Arc<Job>`). -/
structure Activity where
  place : Place
  schedule : Schedule
  job : Option ℕ
  deriving DecidableEq

/-- Vehicle costs; only `per_waiting_time` is consulted by the timing module,
the other fields are omitted. -/
structure Costs where
  per_waiting_time : ℚ
  deriving DecidableEq

/-- A vehicle: routing profile plus costs. -/
structure Vehicle where
  profile : ℕ
  costs : Costs
  deriving DecidableEq

/-- Drivers carry no data consulted by the embedded operations. -/
abbrev Driver := Unit

/-- Actor detail: optional start/end locations and the shift time window.
The Rust field `end` is called `end_`. -/
structure ActorDetail where
  start : Option ℕ
  end_ : Option ℕ
  time : TimeWindow
  deriving DecidableEq

/-- A vehicle+driver pairing with its shift detail. -/
structure Actor where
  vehicle : Vehicle
  driver : Driver
  detail : ActorDetail
  deriving DecidableEq

/-- A route: an actor and its ordered activity sequence (the tour).
`tour.start()` is the head of the list and `all_activities()` the whole
list in order. -/
structure Route where
  actor : Actor
  tour : List Activity
  deriving DecidableEq

/-- Transport oracle.  `duration profile from to departure` and
`cost vehicle driver from to departure`. -/
structure TransportCost where
  duration : ℕ → ℕ → ℕ → ℚ → ℚ
  cost : Vehicle → Driver → ℕ → ℕ → ℚ → ℚ

/-- Activity oracle.  `duration vehicle driver activity arrival` and
`cost vehicle driver activity arrival`. -/
structure ActivityCost where
  duration : Vehicle → Driver → Activity → ℚ → ℚ
  cost : Vehicle → Driver → Activity → ℚ → ℚ

/-- A route with its per-activity derived state.  The two state entries the
timing module maintains (keys `LATEST_ARRIVAL_KEY` and `WAITING_KEY`) are
modelled as two partial maps from activities to values. -/
structure RouteContext where
  route : Route
  latestArrival : Activity → Option ℚ
  waiting : Activity → Option ℚ

/-- A candidate insertion position: `target` is evaluated between `prev`
and `next`; `next = none` is the open-VRP case. -/
structure ActivityContext where
  index : ℕ
  prev : Activity
  target : Activity
  next : Option Activity

/-- Result of a hard activity constraint: violation code and whether
subsequent insertion positions in the route are also infeasible. -/
structure ActivityConstraintViolation where
  code : ℤ
  stopped : Bool
  deriving DecidableEq

/-- Solution-level context: routes plus the set of still-required (unassigned)
job ids.  The `ignored`/`locked`/`unassigned` collections are not consulted by
the embedded operations and are omitted. -/
structure SolutionContext where
  routes : List RouteContext
  required : List ℕ

/-- State key of the latest-arrival entries (`LATEST_ARRIVAL_KEY: i32 = 1`). -/
def LATEST_ARRIVAL_KEY : ℤ := 1

/-- State key of the waiting-time entries (`WAITING_KEY: i32 = 2`). -/
def WAITING_KEY : ℤ := 2

/-- The message of the panic guarding the not-yet-implemented optional start. -/
def OP_START_MSG : String := "Optional start is not yet implemented."

/-- A Rust `panic!` with a message, in the error monad. -/
def panicWith (msg : String) : Except String α :=
  Except.error msg

/-- Call-by-value embedding of `Option::unwrap_or` whose default argument is
an effectful expression: Rust evaluates the argument before `unwrap_or` runs,
so the default's effect fires even when the option is `Some`. -/
def unwrapOrCBV (o : Option α) (dflt : Except String α) : Except String α := do
  let d ← dflt
  pure (o.getD d)

/-- The timing constraint module: violation code plus the two cost oracles
(the `state_keys` and `constraints` vectors are derived data). -/
structure TimingConstraintModule where
  code : ℤ
  activity : ActivityCost
  transport : TransportCost

/-- One step of the forward pass (the fold body of lines 40-54 of
`timing.rs`): given the accumulator `(loc, dep)` of the previous activity,
rewrite the activity's schedule.  The activity the duration oracle receives
has its arrival already updated but still the stale departure, exactly as in
the source (the departure is assigned afterwards). -/
def scheduleActivity (tm : TimingConstraintModule) (actor : Actor) (loc : ℕ)
    (dep : ℚ) (a : Activity) : Activity :=
  let arrival := dep + tm.transport.duration actor.vehicle.profile loc a.place.location dep
  let a1 : Activity := { a with schedule := { a.schedule with arrival := arrival } }
  let departure := max arrival a.place.time.start
    + tm.activity.duration actor.vehicle actor.driver a1 arrival
  { a1 with schedule := { a1.schedule with departure := departure } }

/-- The forward pass: fold `scheduleActivity` left-to-right over the
activities after the start terminal, threading `(location, departure)`. -/
def forwardPass (tm : TimingConstraintModule) (actor : Actor) :
    ℕ × ℚ → List Activity → List Activity
  | _, [] => []
  | (loc, dep), a :: rest =>
    let a' := scheduleActivity tm actor loc dep a
    a' :: forwardPass tm actor (a'.place.location, a'.schedule.departure) rest

/-- The backward pass (the fold body of lines 63-81 of `timing.rs`), applied
to the reversed tour: terminal (job-less) activities pass the accumulator
`(end_time, prev_loc, waiting)` through unchanged; each job activity yields a
`(activity, latest_arrival, future_waiting)` state write and advances the
accumulator. -/
def backwardPass (tm : TimingConstraintModule) (actor : Actor) :
    ℚ × ℕ × ℚ → List Activity → List (Activity × ℚ × ℚ)
  | _, [] => []
  | acc, a :: rest =>
    if a.job.isNone then backwardPass tm actor acc rest
    else
      let endTime := acc.1
      let prevLoc := acc.2.1
      let waiting := acc.2.2
      let potentialLatest := endTime
        - tm.transport.duration actor.vehicle.profile a.place.location prevLoc endTime
        - tm.activity.duration actor.vehicle actor.driver a endTime
      let latestArrivalTime := min a.place.time.end_ potentialLatest
      let futureWaiting := waiting + max (a.place.time.start - a.schedule.arrival) 0
      (a, latestArrivalTime, futureWaiting)
        :: backwardPass tm actor (latestArrivalTime, a.place.location, futureWaiting) rest

/-- `put_activity_state`: point update of a per-activity state map. -/
def putActivityState (st : Activity → Option ℚ) (a : Activity) (v : ℚ) :
    Activity → Option ℚ :=
  fun a' => if a' = a then some v else st a'

/-- Apply the backward-pass writes to the latest-arrival and waiting maps in
the order they were produced. -/
def applyBackward :
    (Activity → Option ℚ) × (Activity → Option ℚ) → List (Activity × ℚ × ℚ) →
    (Activity → Option ℚ) × (Activity → Option ℚ)
  | st, [] => st
  | (la, wa), (a, l, w) :: rest =>
    applyBackward (putActivityState la a l, putActivityState wa a w) rest

/-- `TimingConstraintModule::accept_route_state` (lines 30-82 of `timing.rs`).
The two `unwrap_or(panic!(OP_START_MSG))` defaults are embedded call-by-value,
as Rust evaluates them: the start-terminal lookup and the backward-pass
initialization both force the panic before inspecting the option. -/
def accept_route_state (tm : TimingConstraintModule) (ctx : RouteContext) :
    Except String RouteContext := do
  let route := ctx.route
  let start_ ← unwrapOrCBV route.tour.head? (panicWith OP_START_MSG)
  let actor := route.actor
  let newTour := start_ ::
    forwardPass tm actor (start_.place.location, start_.schedule.departure) route.tour.tail
  let endLocation ← unwrapOrCBV actor.detail.end_
    (unwrapOrCBV actor.detail.start (panicWith OP_START_MSG))
  let writes := backwardPass tm actor (actor.detail.time.end_, endLocation, 0) newTour.reverse
  let st := applyBackward (ctx.latestArrival, ctx.waiting) writes
  pure { route := { route with tour := newTour }, latestArrival := st.1, waiting := st.2 }

/-- The state recomputation of `accept_route_state` as its fold bodies intend
it, i.e. with the `unwrap_or` defaults taken lazily (panicking only when the
tour has no start terminal and when both end and start locations are absent).
This is the behaviour the surrounding code documents; the shipped code
instead evaluates the panics eagerly, see `accept_route_state`. -/
def route_state_pass (tm : TimingConstraintModule) (ctx : RouteContext) :
    Option RouteContext :=
  match ctx.route.tour with
  | [] => none
  | start_ :: rest =>
    match ctx.route.actor.detail.end_.orElse (fun _ => ctx.route.actor.detail.start) with
    | none => none
    | some endLocation =>
      let actor := ctx.route.actor
      let newTour := start_ ::
        forwardPass tm actor (start_.place.location, start_.schedule.departure) rest
      let writes := backwardPass tm actor (actor.detail.time.end_, endLocation, 0) newTour.reverse
      let st := applyBackward (ctx.latestArrival, ctx.waiting) writes
      some { route := { ctx.route with tour := newTour }, latestArrival := st.1, waiting := st.2 }

/-- The observable outcome of the route-state computation: every activity of
the tour together with its two timing-state entries. -/
def stateSnapshot (ctx : RouteContext) : List (Activity × Option ℚ × Option ℚ) :=
  ctx.route.tour.map (fun a => (a, ctx.latestArrival a, ctx.waiting a))

/-- The hard timing constraint: violation code plus the two oracles. -/
structure TimeHardActivityConstraint where
  code : ℤ
  activity : ActivityCost
  transport : TransportCost

/-- `TimeHardActivityConstraint::fail`: violation with `stopped = true`. -/
def TimeHardActivityConstraint.fail (self : TimeHardActivityConstraint) :
    Option ActivityConstraintViolation :=
  some { code := self.code, stopped := true }

/-- `TimeHardActivityConstraint::stop`: violation with `stopped = false`. -/
def TimeHardActivityConstraint.stop (self : TimeHardActivityConstraint) :
    Option ActivityConstraintViolation :=
  some { code := self.code, stopped := false }

/-- `TimeHardActivityConstraint::success`: no violation. -/
def TimeHardActivityConstraint.success (self : TimeHardActivityConstraint) :
    Option ActivityConstraintViolation :=
  none

/-- Does the shift end precede the time-window start of the next activity?
Embeds `next.map_or(false, |next| actor.detail.time.end < next.place.time.start)`. -/
def nextTwStartLate (endT : ℚ) (next : Option Activity) : Bool :=
  (next.map fun n => decide (endT < n.place.time.start)).getD false

/-- The pre-check of `evaluate_activity` (lines 162-165 of `timing.rs`): the
actor's shift end precedes the window start of prev, target, or next. -/
def hardPre (actor : Actor) (prev target : Activity) (next : Option Activity) : Prop :=
  actor.detail.time.end_ < prev.place.time.start
    ∨ actor.detail.time.end_ < target.place.time.start
    ∨ nextTwStartLate actor.detail.time.end_ next = true

instance (actor : Actor) (prev target : Activity) (next : Option Activity) :
    Decidable (hardPre actor prev target next) := by
  unfold hardPre
  exact inferInstance

/-- `arr_time_at_next`: arrival at the next-activity location when skipping
the target (departing `prev` at its departure time). -/
def arrTimeAtNextF (self : TimeHardActivityConstraint) (actor : Actor)
    (prev : Activity) (nextActLocation : ℕ) : ℚ :=
  prev.schedule.departure
    + self.transport.duration actor.vehicle.profile prev.place.location nextActLocation
        prev.schedule.departure

/-- `arr_time_at_target_act`: arrival at the target when departing `prev` at
its departure time. -/
def arrTimeAtTargetF (self : TimeHardActivityConstraint) (actor : Actor)
    (prev target : Activity) : ℚ :=
  prev.schedule.departure
    + self.transport.duration actor.vehicle.profile prev.place.location
        target.place.location prev.schedule.departure

/-- `end_time_at_new_act`: service end at the inserted target. -/
def endTimeAtNewF (self : TimeHardActivityConstraint) (actor : Actor)
    (prev target : Activity) : ℚ :=
  max (arrTimeAtTargetF self actor prev target) target.place.time.start
    + self.activity.duration actor.vehicle actor.driver target
        (arrTimeAtTargetF self actor prev target)

/-- `latest_arr_time_at_new_act`: the insertion-adjusted latest arrival at
the target. -/
def latestArrTimeAtNewF (self : TimeHardActivityConstraint) (actor : Actor)
    (prev target : Activity) (nextActLocation : ℕ)
    (latestArrTimeAtNextAct : ℚ) : ℚ :=
  min target.place.time.end_
    (latestArrTimeAtNextAct
      - self.transport.duration actor.vehicle.profile target.place.location
          nextActLocation latestArrTimeAtNextAct
      + self.activity.duration actor.vehicle actor.driver target
          (arrTimeAtTargetF self actor prev target))

/-- `arr_time_at_next_act` of the open-VRP check: arrival back at the
next-activity location after serving the inserted target. -/
def arrBackAtNextF (self : TimeHardActivityConstraint) (actor : Actor)
    (prev target : Activity) (nextActLocation : ℕ) : ℚ :=
  endTimeAtNewF self actor prev target
    + self.transport.duration actor.vehicle.profile target.place.location
        nextActLocation (endTimeAtNewF self actor prev target)

/-- The tail of `evaluate_activity` after the `(next_act_location,
latest_arr_time_at_next_act)` selection (lines 186-238 of `timing.rs`),
shared by the closed- and open-VRP branches.  The source's let-bound
intermediates are the named functions above. -/
def evaluateActivityTail (self : TimeHardActivityConstraint) (actor : Actor)
    (prev target : Activity) (nextIsSome : Bool) (nextActLocation : ℕ)
    (latestArrTimeAtNextAct : ℚ) : Option ActivityConstraintViolation :=
  if arrTimeAtNextF self actor prev nextActLocation > latestArrTimeAtNextAct then
    self.fail
  else if target.place.time.start > latestArrTimeAtNextAct then self.stop
  else if arrTimeAtTargetF self actor prev target
      > latestArrTimeAtNewF self actor prev target nextActLocation
          latestArrTimeAtNextAct then
    self.stop
  else if nextIsSome then self.success
  else if arrBackAtNextF self actor prev target nextActLocation
      > latestArrTimeAtNextAct then
    self.stop
  else self.success

/-- `TimeHardActivityConstraint::evaluate_activity` (lines 147-239 of
`timing.rs`).  The redundant inner shift-end re-check of the closed-VRP
branch (lines 174-176 of the source) is kept. -/
def evaluate_activity (self : TimeHardActivityConstraint) (routeCtx : RouteContext)
    (activityCtx : ActivityContext) : Option ActivityConstraintViolation :=
  let route := routeCtx.route
  let actor := route.actor
  let prev := activityCtx.prev
  let target := activityCtx.target
  let next := activityCtx.next
  if hardPre actor prev target next then self.fail
  else
    match next with
    | some n =>
      if actor.detail.time.end_ < n.place.time.start then self.fail
      else
        evaluateActivityTail self actor prev target true n.place.location
          ((routeCtx.latestArrival n).getD n.place.time.end_)
    | none =>
      evaluateActivityTail self actor prev target false target.place.location
        (min target.place.time.end_ actor.detail.time.end_)

/-- The `(next_loc, latest_at_next)` pair of the specification: closed VRP
reads the cached latest arrival of `next` (falling back to its window end),
open VRP uses the target's location and `min(target.tw.end, shift end)`. -/
def nextLocAndLatest (routeCtx : RouteContext) (target : Activity)
    (next : Option Activity) : ℕ × ℚ :=
  match next with
  | some n => (n.place.location, (routeCtx.latestArrival n).getD n.place.time.end_)
  | none =>
    (target.place.location, min target.place.time.end_ routeCtx.route.actor.detail.time.end_)

/-- The hard activity constraint as the specification words it: one ordered
case split.  `stopped = true` exactly for a shift-end pre-check failure or a
latest-arrival overrun at the next location; `stopped = false` exactly for the
three late-arrival conditions (the third one only for open VRP); otherwise no
violation. -/
def evaluate_activity_spec (self : TimeHardActivityConstraint)
    (routeCtx : RouteContext) (activityCtx : ActivityContext) :
    Option ActivityConstraintViolation :=
  let actor := routeCtx.route.actor
  let prev := activityCtx.prev
  let target := activityCtx.target
  let next := activityCtx.next
  let nl := nextLocAndLatest routeCtx target next
  if hardPre actor prev target next
      ∨ arrTimeAtNextF self actor prev nl.1 > nl.2 then
    some { code := self.code, stopped := true }
  else if target.place.time.start > nl.2
      ∨ arrTimeAtTargetF self actor prev target
        > latestArrTimeAtNewF self actor prev target nl.1 nl.2
      ∨ (next = none ∧ arrBackAtNextF self actor prev target nl.1 > nl.2) then
    some { code := self.code, stopped := false }
  else
    none

/-- The soft timing constraint: the two oracles. -/
structure TimeSoftActivityConstraint where
  activity : ActivityCost
  transport : TransportCost

/-- `TimeSoftActivityConstraint::analyze_route_leg`: transport cost, activity
cost and departure time of travelling a leg starting at `time`. -/
def analyze_route_leg (self : TimeSoftActivityConstraint) (actor : Actor)
    (startAct endAct : Activity) (time : ℚ) : ℚ × ℚ × ℚ :=
  let arrival := time
    + self.transport.duration actor.vehicle.profile startAct.place.location
        endAct.place.location time
  let departure := max arrival endAct.place.time.start
    + self.activity.duration actor.vehicle actor.driver endAct arrival
  let transportCost := self.transport.cost actor.vehicle actor.driver
    startAct.place.location endAct.place.location time
  let activityCost := self.activity.cost actor.vehicle actor.driver endAct arrival
  (transportCost, activityCost, departure)

/-- Modelled from the spec: `Tour::has_jobs` (only callers of the tour API are
in scope) — whether any activity of the tour carries a job. -/
def has_jobs (tour : List Activity) : Bool :=
  tour.any fun a => a.job.isSome

/-- `TimeSoftActivityConstraint::estimate_activity` (lines 274-311 of
`timing.rs`). -/
def estimate_activity (self : TimeSoftActivityConstraint) (routeCtx : RouteContext)
    (activityCtx : ActivityContext) : ℚ :=
  let route := routeCtx.route
  let actor := route.actor
  let prev := activityCtx.prev
  let target := activityCtx.target
  let next := activityCtx.next
  let left := analyze_route_leg self actor prev target prev.schedule.departure
  let tpCostLeft := left.1
  let actCostLeft := left.2.1
  let depTimeLeft := left.2.2
  let right := match next with
    | some n => analyze_route_leg self actor target n depTimeLeft
    | none => analyze_route_leg self actor target target depTimeLeft
  let tpCostRight := right.1
  let actCostRight := right.2.1
  let depTimeRight := right.2.2
  let newCosts := tpCostLeft + tpCostRight + (actCostLeft + actCostRight)
  if has_jobs route.tour = false ∨ next = none then newCosts
  else
    match next with
    | some n =>
      let waitingTime := (routeCtx.waiting n).getD 0
      let old := analyze_route_leg self actor prev n prev.schedule.departure
      let tpCostOld := old.1
      let actCostOld := old.2.1
      let depTimeOld := old.2.2
      let waitingCost := min waitingTime (max 0 (depTimeRight - depTimeOld))
        * actor.vehicle.costs.per_waiting_time
      let oldCosts := tpCostOld + (actCostOld + waitingCost)
      newCosts - oldCosts
    | none => newCosts

/-- The soft activity constraint as the specification words it: the new leg
costs when the route has no jobs or `next` is absent, otherwise the new cost
minus the old cost whose waiting credit is bounded by the known downstream
slack. -/
def estimate_activity_spec (self : TimeSoftActivityConstraint)
    (routeCtx : RouteContext) (activityCtx : ActivityContext) : ℚ :=
  let actor := routeCtx.route.actor
  let prev := activityCtx.prev
  let target := activityCtx.target
  let left := analyze_route_leg self actor prev target prev.schedule.departure
  let right := match activityCtx.next with
    | some n => analyze_route_leg self actor target n left.2.2
    | none => analyze_route_leg self actor target target left.2.2
  let newCost := left.1 + right.1 + left.2.1 + right.2.1
  match activityCtx.next with
  | none => newCost
  | some n =>
    if has_jobs routeCtx.route.tour = false then newCost
    else
      let old := analyze_route_leg self actor prev n prev.schedule.departure
      let waiting := (routeCtx.waiting n).getD 0
      let waitingDeltaCost := min waiting (max 0 (right.2.2 - old.2.2))
        * actor.vehicle.costs.per_waiting_time
      newCost - (old.1 + old.2.1 + waitingDeltaCost)

/-- `reschedule_departure` (lines 314-316 of `timing.rs`): the body is
`unimplemented!()`, which panics with this message. -/
def reschedule_departure (ctx : RouteContext) : Except String Unit :=
  Except.error "not implemented"

/-- Modelled from the spec: `Tour::activity_count` (only callers of the tour
API are in scope) — the number of activities of the tour, used by
`accept_solution_state` to select routes "with at least one activity". -/
def activity_count (tour : List Activity) : ℕ :=
  tour.length

/-- The `for_each` of `accept_solution_state`: call `reschedule_departure` on
every selected route, propagating its panic. -/
def forEachReschedule : List RouteContext → Except String Unit
  | [] => Except.ok ()
  | r :: rest => do
    let _ ← reschedule_departure r
    forEachReschedule rest

/-- `TimingConstraintModule::accept_solution_state` (lines 84-93 of
`timing.rs`): when no job is still required, run `reschedule_departure` over
every route with at least one activity; otherwise leave the solution as is. -/
def accept_solution_state (ctx : SolutionContext) : Except String SolutionContext :=
  if ctx.required.isEmpty then do
    let _ ← forEachReschedule
      (ctx.routes.filter fun routeCtx => decide (0 < activity_count routeCtx.route.tour))
    pure ctx
  else
    pure ctx

/-- `InsertionContext::deep_copy`: under value semantics a deep copy is the
value itself (the Rust copy only severs sharing). -/
def deep_copy (a : α) : α := a

/-- `unwrap_from_result`: collapse a `Result` whose both sides carry the same
type. -/
def unwrap_from_result : Except α α → α
  | Except.ok a => a
  | Except.error a => a

/-- `Iterator::try_fold` over a list: stop at the first `Err`. -/
def tryFold (f : α → β → Except γ α) : α → List β → Except γ α
  | a, [] => Except.ok a
  | a, b :: bs =>
    match f a b with
    | Except.ok a' => tryFold f a' bs
    | Except.error e => Except.error e

/-- One entry of a `MutationGroup`: the mutation (a function of the refinement
context and an insertion context) and its probability predicate (the sampled
outcome of `probability(refinement_ctx, insertion_ctx)`). -/
structure MutationEntry (ρ α : Type) where
  mutation : ρ → α → α
  probability : ρ → α → Bool

/-- `StaticSelective::mutate` (lines 70-88 of `static_selective.rs`):
filter the mutation group by the probability predicates applied to the
original individual, then `try_fold` from a deep copy of it, exiting with
`Err` on the first chained context that improves on the original under
`objective.total_order`. -/
def StaticSelective.mutate (totalOrder : α → α → Ordering)
    (mutationGroup : List (MutationEntry ρ α)) (refinementCtx : ρ)
    (insertionCtx : α) : α :=
  unwrap_from_result
    (tryFold
      (fun ctx e =>
        let newInsertionCtx := e.mutation refinementCtx ctx
        if totalOrder insertionCtx newInsertionCtx = Ordering.gt then
          Except.error newInsertionCtx
        else
          Except.ok newInsertionCtx)
      (deep_copy insertionCtx)
      (mutationGroup.filter fun e => e.probability refinementCtx insertionCtx))

/-- The mutation chain as the specification words it: apply the selected
mutations in order to the chained context, returning the first mutated
context that strictly improves on the original individual, or the final
chained context when none does. -/
def specChain (totalOrder : α → α → Ordering) (refinementCtx : ρ) (orig : α) :
    α → List (MutationEntry ρ α) → α
  | ctx, [] => ctx
  | ctx, e :: rest =>
    let newCtx := e.mutation refinementCtx ctx
    if totalOrder orig newCtx = Ordering.gt then newCtx
    else specChain totalOrder refinementCtx orig newCtx rest

/-- Association-list lookup; the reading interface of the `HashMap` model. -/
def alookup [DecidableEq K] : List (K × V) → K → Option V
  | [], _ => none
  | p :: ps, k => if p.1 = k then some p.2 else alookup ps k

/-- `HashMap::insert` on the association-list model: prepend, which shadows
any earlier binding of the key under `alookup`. -/
def insertA (m : List (K × V)) (k : K) (v : V) : List (K × V) :=
  (k, v) :: m

/-- The values a list of key/value pairs holds under a key, in list order. -/
def groupVals [DecidableEq K] (ps : List (K × V)) (k : K) : List V :=
  ps.filterMap fun p => if p.1 = k then some p.2 else none

/-- `CollectGroupBy::collect_group_by`: group a flat pair list by key.  Each
key of the input appears exactly once, with all its values in input order. -/
def collectGroupBy [DecidableEq K] (ps : List (K × V)) : List (K × List V) :=
  (ps.map Prod.fst).dedup.map fun k => (k, groupVals ps k)

/-- Fold a grouped list into a map, inserting for each group a value computed
from the current map and the group.  Shape shared by the two nested merges of
`run_episodes`. -/
def foldInsert [DecidableEq K] (F : List (K × V) → K × P → V)
    (q : List (K × V)) (groups : List (K × P)) : List (K × V) :=
  groups.foldl (fun q' g => insertA q' g.1 (F q' g)) q

/-- The inner merge of `run_episodes`: starting from the route's existing
action-value map (`entry(state).or_insert_with(HashMap::new)`), insert
`reduce` of the observed values for every action appearing in the group. -/
def mergedInner [DecidableEq A] (reduce : List V → V) (old : Option (List (A × V)))
    (vs : List (List (A × V))) : List (A × V) :=
  foldInsert (fun _ h => reduce h.2) (old.getD []) (collectGroupBy (vs.flatMap id))

/-- Nested lookup into a two-level map: `Q[state][action]`. -/
def lookup2 [DecidableEq S] [DecidableEq A] (q : List (S × List (A × V)))
    (s : S) (a : A) : Option V :=
  (alookup q s).bind fun m => alookup m a

/-- The `q_new` values observed for a state/action pair across the per-agent
episode deltas, in agent order. -/
def deltaValues [DecidableEq S] [DecidableEq A]
    (qs : List (List (S × List (A × V)))) (s : S) (a : A) : List V :=
  qs.flatMap fun d => ((alookup d s).bind fun m => alookup m a).toList

/-- The merge stage of `Simulator::run_episodes` (lines 40-45 of
`simulator.rs`).  The per-agent episode deltas `qs` (the `q_new` maps returned
by `run_episode`, whose loop ends only when the policy offers no action) are
taken as input; the nested `merge_vec_maps` calls group the deltas by state,
then by action, and overwrite `Q[state][action]` with `reduce` of the
collected values. -/
def run_episodes_merge [DecidableEq S] [DecidableEq A]
    (q : List (S × List (A × V))) (qs : List (List (S × List (A × V))))
    (reduce : List V → V) : List (S × List (A × V)) :=
  foldInsert (fun q' g => mergedInner reduce (alookup q' g.1) g.2) q
    (collectGroupBy (qs.flatMap id))

/-- `Simulator::ensure_actions` (lines 85-93 of `simulator.rs`): initialize
`q_new[state]` from the global `Q[state]` when present, else from
`agent.get_actions(state)`; leave `q_new` unchanged when it already holds an
entry for the state. -/
def ensure_actions [DecidableEq S] [DecidableEq A]
    (qNew q : List (S × List (A × V))) (state : S) (agentActions : List (A × V)) :
    List (S × List (A × V)) :=
  match alookup qNew state, alookup q state with
  | none, some estimates => insertA qNew state estimates
  | none, none => insertA qNew state agentActions
  | some _, _ => qNew

/-- The forward-pass property as the specification words it, read along a
list of consecutive activities: each activity's arrival is the previous
departure plus the travel duration, and its departure is the service start
(arrival clamped to the window start) plus the service duration. -/
def forwardLinked (tm : TimingConstraintModule) (actor : Actor) :
    Activity → List Activity → Prop
  | _, [] => True
  | prevA, a :: rest =>
    (a.schedule.arrival = prevA.schedule.departure
        + tm.transport.duration actor.vehicle.profile prevA.place.location
            a.place.location prevA.schedule.departure
      ∧ a.schedule.departure = max a.schedule.arrival a.place.time.start
        + tm.activity.duration actor.vehicle actor.driver a a.schedule.arrival)
    ∧ forwardLinked tm actor a rest

/-- Travel duration used by the concrete examples: the distance between two
location indices, one time unit per unit of distance. -/
def locDuration (a b : ℕ) : ℚ :=
  ((max a b - min a b : ℕ) : ℚ)

/-- Concrete transport oracle of the examples. -/
def exTransport : TransportCost where
  duration := fun _ a b _ => locDuration a b
  cost := fun _ _ a b _ => locDuration a b

/-- Concrete activity oracle of the examples: every service takes 5 time
units and costs 5 units (independent of the activity's mutable schedule). -/
def exActivityCost : ActivityCost where
  duration := fun _ _ _ _ => 5
  cost := fun _ _ _ _ => 5

/-- Concrete vehicle of the examples. -/
def exVehicle : Vehicle where
  profile := 0
  costs := { per_waiting_time := 1 }

/-- Concrete actor: shift `[0, 100]`, starts and ends at location `0`. -/
def exActor : Actor where
  vehicle := exVehicle
  driver := ()
  detail := { start := some 0, end_ := some 0, time := { start := 0, end_ := 100 } }

/-- Concrete timing module of the examples. -/
def exTm : TimingConstraintModule where
  code := 1
  activity := exActivityCost
  transport := exTransport

/-- Start terminal at location `0`, departing at time `0`. -/
def exStart : Activity where
  place := { location := 0, duration := 0, time := { start := 0, end_ := 100 } }
  schedule := { arrival := 0, departure := 0 }
  job := none

/-- Job 1 at location `1` with window `[10, 20]`; stale schedule. -/
def exJob1 : Activity where
  place := { location := 1, duration := 5, time := { start := 10, end_ := 20 } }
  schedule := { arrival := 0, departure := 0 }
  job := some 1

/-- Job 2 at location `2` with window `[30, 40]`; stale schedule. -/
def exJob2 : Activity where
  place := { location := 2, duration := 5, time := { start := 30, end_ := 40 } }
  schedule := { arrival := 0, departure := 0 }
  job := some 2

/-- End terminal at location `0`; stale schedule. -/
def exEnd : Activity where
  place := { location := 0, duration := 0, time := { start := 0, end_ := 100 } }
  schedule := { arrival := 0, departure := 0 }
  job := none

/-- Concrete route context: tour `start, job1, job2, end`, empty state. -/
def exCtx : RouteContext where
  route := { actor := exActor, tour := [exStart, exJob1, exJob2, exEnd] }
  latestArrival := fun _ => none
  waiting := fun _ => none

/-- Job 1 after the forward pass: arrival `1`, departure `15`. -/
def exJob1F : Activity where
  place := { location := 1, duration := 5, time := { start := 10, end_ := 20 } }
  schedule := { arrival := 1, departure := 15 }
  job := some 1

/-- Job 2 after the forward pass: arrival `16`, departure `35`. -/
def exJob2F : Activity where
  place := { location := 2, duration := 5, time := { start := 30, end_ := 40 } }
  schedule := { arrival := 16, departure := 35 }
  job := some 2

/-- End terminal after the forward pass: arrival `37`, departure `42`. -/
def exEndF : Activity where
  place := { location := 0, duration := 0, time := { start := 0, end_ := 100 } }
  schedule := { arrival := 37, departure := 42 }
  job := none

/-- The example tour after the forward pass. -/
def exTourF : List Activity :=
  exStart :: forwardPass exTm exActor (exStart.place.location, exStart.schedule.departure)
    [exJob1, exJob2, exEnd]

/-- The example route context after one intended route-state pass. -/
def exCtxOnce : RouteContext :=
  (route_state_pass exTm exCtx).getD exCtx

/-- The example route context after two intended route-state passes. -/
def exCtxTwice : RouteContext :=
  (route_state_pass exTm exCtxOnce).getD exCtxOnce

/-- Solution context with no required job and one nonempty route. -/
def exSolution : SolutionContext where
  routes := [exCtx]
  required := []

/-- Solution context that still has a required job. -/
def exSolutionRequired : SolutionContext where
  routes := [exCtx]
  required := [7]

/-- On every route, the forward fold produces schedules satisfying the
claimed consecutive-activity equations, provided the activity-duration oracle
ignores the mutable schedule component of its activity argument (the source
passes the activity mid-update: arrival already rewritten, departure stale). -/
theorem forwardPass_linked (tm : TimingConstraintModule) (actor : Actor)
    (hdur : ∀ (a : Activity) (s : Schedule) (t : ℚ),
      tm.activity.duration actor.vehicle actor.driver { a with schedule := s } t
        = tm.activity.duration actor.vehicle actor.driver a t) :
    ∀ (rest : List Activity) (prevA : Activity),
      forwardLinked tm actor prevA
        (forwardPass tm actor (prevA.place.location, prevA.schedule.departure) rest)
  | [], _ => trivial
  | a :: rest, prevA => by
    simp only [forwardPass, forwardLinked]
    refine ⟨⟨?_, ?_⟩, ?_⟩
    · simp [scheduleActivity]
    · simp [scheduleActivity, hdur]
    · exact forwardPass_linked tm actor hdur rest (scheduleActivity tm actor
        prevA.place.location prevA.schedule.departure a)

/-- The backward fold passes the accumulator through unchanged at terminal
(job-less) activities. -/
theorem backwardPass_skip_terminal (tm : TimingConstraintModule) (actor : Actor)
    (acc : ℚ × ℕ × ℚ) (a : Activity) (rest : List Activity) (h : a.job = none) :
    backwardPass tm actor acc (a :: rest) = backwardPass tm actor acc rest := by
  simp [backwardPass, h]

/-- C5: `accept_route_state` panics on every route context — the
`panic!(OP_START_MSG)` expressions passed as `unwrap_or` arguments are
evaluated eagerly (call-by-value), so the panic fires unconditionally,
regardless of whether the tour has a start terminal or the actor has
start/end locations. -/
theorem accept_route_state_always_panics_c5 (tm : TimingConstraintModule)
    (ctx : RouteContext) :
    accept_route_state tm ctx = Except.error OP_START_MSG :=
  rfl

/-- C1: the forward pass of the timing module.  The fold of lines 38-55 of
`timing.rs` does give every activity after the start terminal the claimed
schedule — on the example route it produces arrivals `1, 16, 37` and
departures `15, 35, 42`, and the consecutive-activity equations hold of the
result — but `accept_route_state` itself panics (with the optional-start
message) before the fold runs, so no route ever observes this state. -/
theorem timing_forward_pass_c1 :
    accept_route_state exTm exCtx = Except.error OP_START_MSG
      ∧ forwardPass exTm exActor (exStart.place.location, exStart.schedule.departure)
          [exJob1, exJob2, exEnd] = [exJob1F, exJob2F, exEndF]
      ∧ forwardLinked exTm exActor exStart
          (forwardPass exTm exActor (exStart.place.location, exStart.schedule.departure)
            [exJob1, exJob2, exEnd]) := by
  refine ⟨rfl, ?_, ?_⟩ <;>
    norm_num [forwardPass, scheduleActivity, forwardLinked, exTm, exTransport,
      exActivityCost, exActor, exVehicle, exStart, exJob1, exJob2, exEnd,
      exJob1F, exJob2F, exEndF, locDuration]

/-- C2: the backward pass of the timing module.  Walking the example tour in
reverse with accumulator `(actor.time.end, end-or-start location, 0) =
(100, 0, 0)`, the fold of lines 63-81 of `timing.rs` skips the two terminals
and writes `LATEST_ARRIVAL = min(40, 100 - 2 - 5) = 40`,
`WAITING = max(30 - 16, 0) = 14` for job 2 and
`LATEST_ARRIVAL = min(20, 40 - 1 - 5) = 20`,
`WAITING = 14 + max(10 - 1, 0) = 23` for job 1 — but `accept_route_state`
itself panics before the fold runs, so the state is never produced. -/
theorem timing_backward_pass_c2 :
    accept_route_state exTm exCtx = Except.error OP_START_MSG
      ∧ exTourF.reverse = [exEndF, exJob2F, exJob1F, exStart]
      ∧ backwardPass exTm exActor (exActor.detail.time.end_, 0, 0) exTourF.reverse
        = [(exJob2F, 40, 14), (exJob1F, 20, 23)] := by
  refine ⟨rfl, ?_, ?_⟩ <;>
    norm_num [backwardPass, exTourF, forwardPass, scheduleActivity, exTm,
      exTransport, exActivityCost, exActor, exVehicle, exStart, exJob1, exJob2,
      exEnd, exJob1F, exJob2F, exEndF, locDuration]

/-- C10: idempotence of the route-state computation.  The state recomputation
the fold bodies of `accept_route_state` implement is idempotent on the example
route — a second pass reproduces exactly the same schedules and
latest-arrival/waiting state — but `accept_route_state` itself panics on its
first invocation (eager `unwrap_or` panic), so the code never completes even
one run. -/
theorem route_state_idempotent_c10 :
    accept_route_state exTm exCtxOnce = Except.error OP_START_MSG
      ∧ stateSnapshot exCtxTwice = stateSnapshot exCtxOnce := by
  refine ⟨rfl, ?_⟩
  norm_num [stateSnapshot, exCtxTwice, exCtxOnce, route_state_pass, exCtx,
    Option.orElse, forwardPass, scheduleActivity, backwardPass, applyBackward,
    putActivityState, exTm, exTransport, exActivityCost, exActor, exVehicle,
    exStart, exJob1, exJob2, exEnd, locDuration]

/-- C7: `accept_solution_state` with an empty `required` set reaches
`reschedule_departure` for each route with at least one activity, and that
function is `unimplemented!()` — the call panics with "not implemented"
instead of sliding the departure forward; with a non-empty `required` set the
solution is left unchanged. -/
theorem accept_solution_state_c7 :
    accept_solution_state exSolution = Except.error "not implemented"
      ∧ accept_solution_state exSolutionRequired = Except.ok exSolutionRequired := by
  exact ⟨rfl, rfl⟩

/-- The `try_fold`/`unwrap_from_result` pair of `StaticSelective::mutate`
computes the first-improvement chain. -/
theorem unwrap_tryFold_eq_specChain (totalOrder : α → α → Ordering)
    (refinementCtx : ρ) (orig : α) (l : List (MutationEntry ρ α)) (ctx : α) :
    unwrap_from_result
      (tryFold
        (fun c e =>
          let n := e.mutation refinementCtx c
          if totalOrder orig n = Ordering.gt then Except.error n else Except.ok n)
        ctx l)
      = specChain totalOrder refinementCtx orig ctx l := by
  induction l generalizing ctx with
  | nil => rfl
  | cons e rest ih =>
    simp only [tryFold, specChain]
    by_cases h : totalOrder orig (e.mutation refinementCtx ctx) = Ordering.gt
    · simp [h, unwrap_from_result]
    · simp [h, ih]

/-- C6: `StaticSelective::mutate` starts from a deep copy of the individual,
applies the probability-selected mutations in declared order to the chained
context, and returns the first mutated context that strictly improves on the
original individual under `objective.total_order` (early exit); when none
improves, it returns the final chained context — i.e. it equals `specChain`
on the filtered mutation group. -/
theorem static_selective_mutate_c6 (totalOrder : α → α → Ordering)
    (mutationGroup : List (MutationEntry ρ α)) (refinementCtx : ρ)
    (insertionCtx : α) :
    StaticSelective.mutate totalOrder mutationGroup refinementCtx insertionCtx
      = specChain totalOrder refinementCtx insertionCtx (deep_copy insertionCtx)
          (mutationGroup.filter fun e => e.probability refinementCtx insertionCtx) := by
  unfold StaticSelective.mutate
  exact unwrap_tryFold_eq_specChain totalOrder refinementCtx insertionCtx _ _

/-- C8: `ensure_actions` initializes `q_new[state]` from the global `Q[state]`
when that entry exists, otherwise from `agent.get_actions(state)`, and when
`q_new` already holds an entry for the state it never overwrites it — so
within one episode the action-value map of a state is initialized at most
once. -/
theorem ensure_actions_c8 [DecidableEq S] [DecidableEq A]
    (qNew q : List (S × List (A × V))) (state : S) (agentActions : List (A × V)) :
    (∀ estimates, alookup qNew state = none → alookup q state = some estimates →
        ensure_actions qNew q state agentActions = insertA qNew state estimates)
      ∧ (alookup qNew state = none → alookup q state = none →
        ensure_actions qNew q state agentActions = insertA qNew state agentActions)
      ∧ (∀ estimates, alookup qNew state = some estimates →
        ensure_actions qNew q state agentActions = qNew) := by
  refine ⟨?_, ?_, ?_⟩
  · intro estimates h1 h2
    unfold ensure_actions
    rw [h1, h2]
  · intro h1 h2
    unfold ensure_actions
    rw [h1, h2]
  · intro estimates h1
    unfold ensure_actions
    rw [h1]

/-- An episode-local `q_new` already holding an entry for state `0`. -/
def exQNew : List (ℕ × List (ℕ × ℕ)) := [(0, [(1, 5)])]

/-- A global `Q` holding entries for states `0` and `2`. -/
def exQGlobal : List (ℕ × List (ℕ × ℕ)) := [(0, [(1, 9)]), (2, [(3, 7)])]

/-- Action values offered by the agent in the examples. -/
def exAgentActions : List (ℕ × ℕ) := [(4, 0)]

/-- Witness for C8: on concrete maps, an absent `q_new` entry is initialized
from the global `Q`, and an existing entry is left untouched. -/
theorem ensure_actions_c8_witness :
    ensure_actions ([] : List (ℕ × List (ℕ × ℕ))) exQGlobal 0 exAgentActions
        = insertA [] 0 [(1, 9)]
      ∧ ensure_actions exQNew exQGlobal 0 exAgentActions = exQNew := by
  constructor
  · exact (ensure_actions_c8 [] exQGlobal 0 exAgentActions).1 [(1, 9)] rfl (by decide)
  · exact (ensure_actions_c8 exQNew exQGlobal 0 exAgentActions).2.2 [(1, 5)] (by decide)

/-- Looking a key up after an insert of that key yields the inserted value. -/
theorem alookup_insertA_self [DecidableEq K] (m : List (K × V)) (k : K) (v : V) :
    alookup (insertA m k v) k = some v := by
  simp [insertA, alookup]

/-- Looking a different key up after an insert is unchanged. -/
theorem alookup_insertA_ne [DecidableEq K] (m : List (K × V)) (k k' : K) (v : V)
    (h : k ≠ k') : alookup (insertA m k v) k' = alookup m k' := by
  simp [insertA, alookup, h]

/-- A key outside a map's key list has no binding. -/
theorem alookup_eq_none_of_not_mem_keys [DecidableEq K] {k : K} :
    ∀ {m : List (K × V)}, k ∉ m.map Prod.fst → alookup m k = none
  | [], _ => rfl
  | p :: ps, h => by
    have h1 : p.1 ≠ k := by
      intro hk
      exact h (by simp [hk.symm])
    have h2 : k ∉ ps.map Prod.fst := by
      intro hk
      exact h (by simp [hk])
    simp [alookup, h1, alookup_eq_none_of_not_mem_keys h2]

/-- A successful lookup is a membership. -/
theorem mem_of_alookup_eq_some [DecidableEq K] {k : K} {v : V} :
    ∀ {m : List (K × V)}, alookup m k = some v → (k, v) ∈ m
  | [], h => by simp [alookup] at h
  | p :: ps, h => by
    by_cases h1 : p.1 = k
    · simp [alookup, h1] at h
      rw [← h1, ← h]
      simp
    · simp [alookup, h1] at h
      exact List.mem_cons_of_mem _ (mem_of_alookup_eq_some h)

/-- A key holds no group values exactly when it is outside the key list. -/
theorem groupVals_eq_nil_iff [DecidableEq K] :
    ∀ (ps : List (K × V)) (k : K), groupVals ps k = [] ↔ k ∉ ps.map Prod.fst
  | [], k => by simp [groupVals]
  | p :: ps, k => by
    by_cases h1 : p.1 = k
    · simp [groupVals, List.filterMap_cons, h1]
    · rw [show groupVals (p :: ps) k = groupVals ps k from by
        simp [groupVals, List.filterMap_cons, h1]]
      rw [groupVals_eq_nil_iff ps k]
      simp only [List.map_cons, List.mem_cons, not_or]
      constructor
      · intro h
        exact ⟨fun hk => h1 hk.symm, h⟩
      · intro h
        exact h.2

/-- Group values distribute over append. -/
theorem groupVals_append [DecidableEq K] (ps qs : List (K × V)) (k : K) :
    groupVals (ps ++ qs) k = groupVals ps k ++ groupVals qs k := by
  simp [groupVals, List.filterMap_append]

/-- Group values of a flattened list of maps, one map at a time. -/
theorem groupVals_flatMap [DecidableEq K] :
    ∀ (ls : List (List (K × V))) (k : K),
      groupVals (ls.flatMap id) k = ls.flatMap fun ps => groupVals ps k
  | [], k => rfl
  | ps :: ls, k => by
    simp only [List.flatMap_cons, id]
    rw [groupVals_append, groupVals_flatMap ls k]

/-- Under a duplicate-free key list, the group values of a key are exactly its
unique binding. -/
theorem groupVals_eq_alookup_toList [DecidableEq K] :
    ∀ (ps : List (K × V)), (ps.map Prod.fst).Nodup →
      ∀ k, groupVals ps k = (alookup ps k).toList
  | [], _, k => rfl
  | p :: ps, h, k => by
    rw [List.map_cons, List.nodup_cons] at h
    by_cases h1 : p.1 = k
    · have hnil : groupVals ps k = [] := by
        rw [groupVals_eq_nil_iff]
        rw [h1] at h
        exact h.1
      simp [groupVals, List.filterMap_cons, h1, alookup,
        show ps.filterMap _ = ([] : List V) from hnil]
    · simp only [groupVals, List.filterMap_cons, if_neg h1, alookup]
      exact groupVals_eq_alookup_toList ps h.2 k

/-- The keys of a grouped list are the deduplicated input keys. -/
theorem collectGroupBy_keys [DecidableEq K] (ps : List (K × V)) :
    (collectGroupBy ps).map Prod.fst = (ps.map Prod.fst).dedup := by
  have h : (Prod.fst ∘ fun k : K => (k, groupVals ps k)) = id := rfl
  rw [collectGroupBy, List.map_map, h, List.map_id]

/-- Grouping produces duplicate-free keys. -/
theorem collectGroupBy_keys_nodup [DecidableEq K] (ps : List (K × V)) :
    ((collectGroupBy ps).map Prod.fst).Nodup := by
  rw [collectGroupBy_keys]
  exact List.nodup_dedup _

/-- Every input key owns a group holding its values. -/
theorem mem_collectGroupBy_of_mem_keys [DecidableEq K] {ps : List (K × V)} {k : K}
    (h : k ∈ ps.map Prod.fst) : (k, groupVals ps k) ∈ collectGroupBy ps :=
  List.mem_map_of_mem _ (List.mem_dedup.2 h)

/-- A key outside the input is outside the grouped keys. -/
theorem not_mem_collectGroupBy_keys [DecidableEq K] {ps : List (K × V)} {k : K}
    (h : k ∉ ps.map Prod.fst) : k ∉ (collectGroupBy ps).map Prod.fst := by
  rw [collectGroupBy_keys]
  exact fun hc => h (List.mem_dedup.1 hc)

/-- Splitting one step off `foldInsert`. -/
theorem foldInsert_cons [DecidableEq K] (F : List (K × V) → K × P → V)
    (q : List (K × V)) (g : K × P) (gs : List (K × P)) :
    foldInsert F q (g :: gs) = foldInsert F (insertA q g.1 (F q g)) gs :=
  rfl

/-- `foldInsert` leaves keys outside the group list untouched. -/
theorem foldInsert_alookup_not_mem [DecidableEq K] (F : List (K × V) → K × P → V) :
    ∀ (groups : List (K × P)) (q : List (K × V)) (k : K),
      k ∉ groups.map Prod.fst →
      alookup (foldInsert F q groups) k = alookup q k
  | [], q, k, _ => rfl
  | g :: gs, q, k, h => by
    have h1 : g.1 ≠ k := by
      intro hk
      exact h (by simp [hk])
    have h2 : k ∉ gs.map Prod.fst := by
      intro hk
      exact h (by simp [hk])
    rw [foldInsert_cons, foldInsert_alookup_not_mem F gs _ k h2,
      alookup_insertA_ne _ _ _ _ h1]

/-- `foldInsert` binds each grouped key to the value computed from the map it
started from, provided the computation reads the map only at that key. -/
theorem foldInsert_alookup_mem [DecidableEq K] (F : List (K × V) → K × P → V)
    (hF : ∀ (q₁ q₂ : List (K × V)) (k : K) (p : P),
      alookup q₁ k = alookup q₂ k → F q₁ (k, p) = F q₂ (k, p)) :
    ∀ (groups : List (K × P)), ((groups.map Prod.fst).Nodup) →
      ∀ (q : List (K × V)) (k : K) (p : P), (k, p) ∈ groups →
      alookup (foldInsert F q groups) k = some (F q (k, p))
  | [], _, q, k, p, hmem => absurd hmem (List.not_mem_nil _)
  | g :: gs, hnd, q, k, p, hmem => by
    rw [List.map_cons, List.nodup_cons] at hnd
    rw [foldInsert_cons]
    rcases List.mem_cons.1 hmem with hg | hg
    · have hk : g.1 = k := by rw [← hg]
      have hout : k ∉ gs.map Prod.fst := by
        rw [← hk]
        exact hnd.1
      rw [foldInsert_alookup_not_mem F gs _ k hout, ← hg, alookup_insertA_self]
    · have hkin : k ∈ gs.map Prod.fst :=
        List.mem_map_of_mem Prod.fst hg
      have h1 : g.1 ≠ k := by
        intro hk
        rw [hk] at hnd
        exact hnd.1 hkin
      rw [foldInsert_alookup_mem F hF gs hnd.2 _ k p hg]
      exact congrArg some (hF _ q k p (alookup_insertA_ne _ _ _ _ h1))

/-- Lookup into the inner merge when the group holds no value for the action:
fall back to the starting map. -/
theorem alookup_mergedInner_nil [DecidableEq A] (reduce : List V → V)
    (old : Option (List (A × V))) (vs : List (List (A × V))) (a : A)
    (h : groupVals (vs.flatMap id) a = []) :
    alookup (mergedInner reduce old vs) a = alookup (old.getD []) a := by
  unfold mergedInner
  exact foldInsert_alookup_not_mem _ _ _ _
    (not_mem_collectGroupBy_keys ((groupVals_eq_nil_iff _ _).1 h))

/-- Lookup into the inner merge at an action the group observed: the reduced
value of all its observations. -/
theorem alookup_mergedInner_ne [DecidableEq A] (reduce : List V → V)
    (old : Option (List (A × V))) (vs : List (List (A × V))) (a : A)
    (h : groupVals (vs.flatMap id) a ≠ []) :
    alookup (mergedInner reduce old vs) a
      = some (reduce (groupVals (vs.flatMap id) a)) := by
  unfold mergedInner
  have hmem : a ∈ (vs.flatMap id).map Prod.fst := by
    by_contra hc
    exact h ((groupVals_eq_nil_iff _ _).2 hc)
  exact foldInsert_alookup_mem (fun _ h => reduce h.2) (fun _ _ _ _ _ => rfl) _
    (collectGroupBy_keys_nodup _) _ _ _ (mem_collectGroupBy_of_mem_keys hmem)

/-- Reading a defaulted optional map equals binding through the option. -/
theorem alookup_getD_empty [DecidableEq A] (o : Option (List (A × V))) (a : A) :
    alookup (o.getD []) a = o.bind fun m => alookup m a := by
  cases o <;> rfl

/-- Over maps with duplicate-free keys, grouping a flattened list collects the
unique binding of each map. -/
theorem groupVals_flatMap_eq_alookup [DecidableEq K] :
    ∀ (qs : List (List (K × V))), (∀ d ∈ qs, (d.map Prod.fst).Nodup) → ∀ k,
      groupVals (qs.flatMap id) k = qs.flatMap fun d => (alookup d k).toList
  | [], _, k => rfl
  | d :: ds, h, k => by
    have hd : (d.map Prod.fst).Nodup := h d (List.mem_cons_self _ _)
    have hds : ∀ x ∈ ds, (x.map Prod.fst).Nodup :=
      fun x hx => h x (List.mem_cons_of_mem _ hx)
    simp only [List.flatMap_cons, id]
    rw [groupVals_append, groupVals_eq_alookup_toList d hd k,
      groupVals_flatMap_eq_alookup ds hds k]

/-- Flat-mapping through an optional value's list view is binding through the
option. -/
theorem toList_flatMap_toList (o : Option β) (f : β → Option γ) :
    (o.toList).flatMap (fun b => (f b).toList) = (o.bind f).toList := by
  cases o <;> simp

/-- C9: the merge of `run_episodes`.  For every state/action pair observed in
at least one per-agent episode delta, the merged `Q` binds it to `reduce` of
all the observed values (in agent order); every other pair keeps its previous
value. -/
theorem run_episodes_merge_c9 [DecidableEq S] [DecidableEq A]
    (q : List (S × List (A × V))) (qs : List (List (S × List (A × V))))
    (reduce : List V → V)
    (hnd : ∀ d ∈ qs, (d.map Prod.fst).Nodup)
    (hin : ∀ d ∈ qs, ∀ p ∈ d, (p.2.map Prod.fst).Nodup)
    (s : S) (a : A) :
    (deltaValues qs s a = [] →
        lookup2 (run_episodes_merge q qs reduce) s a = lookup2 q s a)
      ∧ (deltaValues qs s a ≠ [] →
        lookup2 (run_episodes_merge q qs reduce) s a
          = some (reduce (deltaValues qs s a))) := by
  have hvs : groupVals (qs.flatMap id) s = qs.flatMap fun d => (alookup d s).toList :=
    groupVals_flatMap_eq_alookup qs hnd s
  have hvnodup : ∀ m ∈ qs.flatMap (fun d => (alookup d s).toList),
      (List.map Prod.fst m).Nodup := by
    intro m hm
    rcases List.mem_flatMap.1 hm with ⟨d, hd, hmd⟩
    have hsome : alookup d s = some m := Option.mem_toList.1 hmd
    exact hin d hd (s, m) (mem_of_alookup_eq_some hsome)
  have hinner : groupVals ((groupVals (qs.flatMap id) s).flatMap id) a
      = deltaValues qs s a := by
    rw [hvs, groupVals_flatMap_eq_alookup _ hvnodup a, List.flatMap_assoc]
    simp only [toList_flatMap_toList]
    rfl
  by_cases hs : s ∈ (qs.flatMap id).map Prod.fst
  · have hF : ∀ (q₁ q₂ : List (S × List (A × V))) (k : S)
        (p : List (List (A × V))), alookup q₁ k = alookup q₂ k →
        mergedInner reduce (alookup q₁ k) p = mergedInner reduce (alookup q₂ k) p :=
      fun _ _ k p h => congrArg (fun o => mergedInner reduce o p) h
    have hlook : alookup (run_episodes_merge q qs reduce) s
        = some (mergedInner reduce (alookup q s) (groupVals (qs.flatMap id) s)) := by
      unfold run_episodes_merge
      exact foldInsert_alookup_mem _ hF _ (collectGroupBy_keys_nodup _) _ _ _
        (mem_collectGroupBy_of_mem_keys hs)
    constructor
    · intro hdelta
      have hnil : groupVals ((groupVals (qs.flatMap id) s).flatMap id) a = [] :=
        hinner.trans hdelta
      unfold lookup2
      rw [hlook]
      show alookup (mergedInner reduce (alookup q s) (groupVals (qs.flatMap id) s)) a
        = (alookup q s).bind fun m => alookup m a
      rw [alookup_mergedInner_nil reduce _ _ a hnil, alookup_getD_empty]
    · intro hne
      have hne2 : groupVals ((groupVals (qs.flatMap id) s).flatMap id) a ≠ [] := by
        rw [hinner]
        exact hne
      unfold lookup2
      rw [hlook]
      show alookup (mergedInner reduce (alookup q s) (groupVals (qs.flatMap id) s)) a
        = some (reduce (deltaValues qs s a))
      rw [alookup_mergedInner_ne reduce _ _ a hne2, hinner]
  · have hmain : lookup2 (run_episodes_merge q qs reduce) s a = lookup2 q s a := by
      unfold lookup2 run_episodes_merge
      rw [foldInsert_alookup_not_mem _ _ _ _ (not_mem_collectGroupBy_keys hs)]
    have hdelta : deltaValues qs s a = [] := by
      rw [← hinner, (groupVals_eq_nil_iff _ _).2 hs]
      rfl
    exact ⟨fun _ => hmain, fun hne => absurd hdelta hne⟩

/-- Episode delta of the first example agent. -/
def exDeltaA : List (ℕ × List (ℕ × ℕ)) := [(0, [(0, 1), (1, 2)])]

/-- Episode delta of the second example agent. -/
def exDeltaB : List (ℕ × List (ℕ × ℕ)) := [(0, [(0, 3)]), (5, [(9, 9)])]

/-- Global `Q` of the merge example. -/
def exGlobalQ : List (ℕ × List (ℕ × ℕ)) := [(0, [(0, 100), (7, 7)]), (3, [(4, 4)])]

/-- Reducer of the merge example: sum of the observed values. -/
def exReduce (l : List ℕ) : ℕ := l.sum

/-- Witness for C9: on concrete deltas, the pair `(0, 0)` observed by both
agents is overwritten with `reduce [1, 3] = 4`, while the pair `(0, 7)`
absent from every delta keeps its previous value `7`. -/
theorem run_episodes_merge_c9_witness :
    lookup2 (run_episodes_merge exGlobalQ [exDeltaA, exDeltaB] exReduce) 0 0 = some 4
      ∧ lookup2 (run_episodes_merge exGlobalQ [exDeltaA, exDeltaB] exReduce) 0 7
        = some 7 := by
  constructor
  · have h := (run_episodes_merge_c9 exGlobalQ [exDeltaA, exDeltaB] exReduce
      (by decide) (by decide) 0 0).2 (by decide)
    rw [h]
    decide
  · have h := (run_episodes_merge_c9 exGlobalQ [exDeltaA, exDeltaB] exReduce
      (by decide) (by decide) 0 7).1 (by decide)
    rw [h]
    decide

/-- C4: `estimate_activity` equals its specification — the new leg costs when
the route has no jobs or `next` is absent, otherwise the new cost minus the
old cost whose waiting credit is `min(state[WAITING][next] or 0,
max(0, dep_R - dep_O)) * per_waiting_time`. -/
theorem estimate_activity_matches_spec_c4 (self : TimeSoftActivityConstraint)
    (routeCtx : RouteContext) (activityCtx : ActivityContext) :
    estimate_activity self routeCtx activityCtx
      = estimate_activity_spec self routeCtx activityCtx := by
  rcases activityCtx with ⟨idx, prev, target, next⟩
  cases next with
  | none =>
    simp only [estimate_activity, estimate_activity_spec]
    rw [if_pos (Or.inr trivial)]
    ring
  | some n =>
    simp only [estimate_activity, estimate_activity_spec]
    by_cases h : has_jobs routeCtx.route.tour = false
    · rw [if_pos (Or.inl h), if_pos h]
      ring
    · rw [if_neg (by
        intro hc
        rcases hc with hc | hc
        · exact h hc
        · exact Option.some_ne_none n hc), if_neg h]
      ring

/-- C3: `evaluate_activity` equals its specification — `stopped = true`
exactly for a failed shift-end pre-check on prev/target/next or a
latest-arrival overrun at the next location; `stopped = false` exactly for a
target window start past the latest at next, an arrival at target past the
insertion-adjusted latest at target, or (open VRP only) a post-insertion
arrival back at the next location past its latest; success otherwise. -/
theorem evaluate_activity_matches_spec_c3 (self : TimeHardActivityConstraint)
    (routeCtx : RouteContext) (activityCtx : ActivityContext) :
    evaluate_activity self routeCtx activityCtx
      = evaluate_activity_spec self routeCtx activityCtx := by
  rcases activityCtx with ⟨idx, prev, target, next⟩
  cases next with
  | none =>
    simp [evaluate_activity, evaluate_activity_spec, evaluateActivityTail,
      nextLocAndLatest, hardPre, nextTwStartLate, TimeHardActivityConstraint.fail,
      TimeHardActivityConstraint.stop, TimeHardActivityConstraint.success]
    try (split_ifs <;> first | rfl | tauto)
  | some n =>
    simp [evaluate_activity, evaluate_activity_spec, evaluateActivityTail,
      nextLocAndLatest, hardPre, nextTwStartLate, TimeHardActivityConstraint.fail,
      TimeHardActivityConstraint.stop, TimeHardActivityConstraint.success]
    try (split_ifs <;> first | rfl | tauto)

end Vrp
